import Mathlib

/-!
Verification of the ScreenTranslator pipeline core.

Shallow embedding of the Python sources under `src/`:
 * `src/core/translation_cache.py` — LRU translation cache
 * `src/core/frame_differ.py` — frame change detector
 * `src/core/ocr_engine.py` — paragraph merger and font-size derivation
 * `src/core/style_extractor.py` — per-block color sampling
 * `src/core/translation_engine.py` — batch translation wrapper
 * `src/core/pipeline.py` — orchestrator cycle and settings updates

Python dicts/OrderedDicts become association lists (most-recently-used
last), machine floats on the exactly-representable constants used by the
code become rationals, numpy frames become explicit lists of rational
intensities, and external collaborators (capture, WinRT OCR, k-means,
the NLLB model) become function parameters supplied by the environment.
-/

namespace ScreenTranslator

/-! ## Translation cache (`src/core/translation_cache.py`)

`TranslationCache` wraps a Python `OrderedDict` keyed by
`(text, source_lang, target_lang)`.  The `OrderedDict` is embedded as an
association list whose last element is the most recently used entry, which
is the iteration/recency order the Python object maintains. -/

/-- Cache key `(text, source_lang, target_lang)`. -/
abbrev CacheKey := String × String × String

/-- First binding of `k` in an association list (Python `key in dict` /
`dict[key]`; dict keys are unique so first = only). -/
def assocFind (l : List (CacheKey × String)) (k : CacheKey) : Option String :=
  match l with
  | [] => none
  | (k', v) :: rest => if k' = k then some v else assocFind rest k

/-- Remove every binding of `k` (a dict holds at most one). -/
def eraseKey (l : List (CacheKey × String)) (k : CacheKey) : List (CacheKey × String) :=
  l.filter (fun e => decide (e.1 ≠ k))

/-- The `while len(self._cache) > self.max_size: self._cache.popitem(last=False)`
loop of `put`: repeatedly drop the least-recently-used (front) entry while
the length exceeds `m`. -/
def evictLoop (m : Nat) : List (CacheKey × String) → List (CacheKey × String)
  | [] => []
  | x :: xs => if xs.length + 1 > m then evictLoop m xs else x :: xs

/-- State of `TranslationCache`: mutable capacity `max_size`, the ordered
dict `cache` (most-recently-used last), and the hit/miss counters. -/
structure TranslationCache where
  max_size : Nat
  cache : List (CacheKey × String)
  hits : Nat
  misses : Nat
  deriving Repr, DecidableEq

/-- `TranslationCache.__init__(max_size)`. -/
def TranslationCache.init (max_size : Nat) : TranslationCache :=
  { max_size := max_size, cache := [], hits := 0, misses := 0 }

/-- `TranslationCache.get`: on hit, `move_to_end` promotes the entry to
most-recently-used and the hit counter increments; on miss the miss counter
increments.  Returns the looked-up value together with the new state. -/
def TranslationCache.get (c : TranslationCache) (text source_lang target_lang : String) :
    Option String × TranslationCache :=
  let key : CacheKey := (text, source_lang, target_lang)
  match assocFind c.cache key with
  | some v =>
      (some v, { c with cache := eraseKey c.cache key ++ [(key, v)], hits := c.hits + 1 })
  | none => (none, { c with misses := c.misses + 1 })

/-- `TranslationCache.put`: `self._cache[key] = translation` followed by
`move_to_end` nets to erase-then-append; then the eviction loop runs. -/
def TranslationCache.put (c : TranslationCache) (text source_lang target_lang translation : String) :
    TranslationCache :=
  let key : CacheKey := (text, source_lang, target_lang)
  { c with cache := evictLoop c.max_size (eraseKey c.cache key ++ [(key, translation)]) }

/-- `TranslationCache.clear`. -/
def TranslationCache.clear (c : TranslationCache) : TranslationCache :=
  { c with cache := [], hits := 0, misses := 0 }

/-- `TranslationCache.size` property. -/
def TranslationCache.size (c : TranslationCache) : Nat :=
  c.cache.length

/-- `self.cache.max_size = settings.max_cache_size` as performed by
`PipelineThread.update_settings` (`src/core/pipeline.py` line 109):
it only reassigns the capacity field, nothing else. -/
def TranslationCache.setMaxSize (c : TranslationCache) (m : Nat) : TranslationCache :=
  { c with max_size := m }

/-- Fold a list of `(key, translation)` entries into the cache via `put`. -/
def putList (c : TranslationCache) (es : List (CacheKey × String)) : TranslationCache :=
  es.foldl (fun acc e => acc.put e.1.1 e.1.2.1 e.1.2.2 e.2) c

/-! ### Cache lemmas -/

theorem assocFind_eq_none_iff (l : List (CacheKey × String)) (k : CacheKey) :
    assocFind l k = none ↔ ∀ e ∈ l, e.1 ≠ k := by
  induction l with
  | nil => simp [assocFind]
  | cons e rest ih =>
    obtain ⟨k', v⟩ := e
    by_cases h : k' = k
    · simp [assocFind, h]
    · simp [assocFind, h, ih]

theorem eraseKey_of_fresh (l : List (CacheKey × String)) (k : CacheKey)
    (h : assocFind l k = none) : eraseKey l k = l := by
  rw [assocFind_eq_none_iff] at h
  unfold eraseKey
  exact List.filter_eq_self.mpr (fun e he => by simpa using h e he)

theorem mem_eraseKey (l : List (CacheKey × String)) (k : CacheKey) (e : CacheKey × String)
    (h : e ∈ eraseKey l k) : e ∈ l ∧ e.1 ≠ k := by
  unfold eraseKey at h
  refine ⟨List.mem_of_mem_filter h, ?_⟩
  have := List.of_mem_filter h
  simpa using this

theorem eraseKey_length_lt (l : List (CacheKey × String)) (k : CacheKey) (v : String)
    (h : assocFind l k = some v) : (eraseKey l k).length + 1 ≤ l.length := by
  induction l with
  | nil => simp [assocFind] at h
  | cons e rest ih =>
    obtain ⟨k', w⟩ := e
    by_cases hk : k' = k
    · have hfil : eraseKey ((k', w) :: rest) k = eraseKey rest k := by
        simp [eraseKey, hk]
      rw [hfil]
      have := List.length_filter_le (fun e => decide (e.1 ≠ k)) rest
      simp only [eraseKey]
      simp only [List.length_cons]
      omega
    · have hfil : eraseKey ((k', w) :: rest) k = (k', w) :: eraseKey rest k := by
        simp [eraseKey, hk]
      rw [hfil]
      have hrest : assocFind rest k = some v := by
        simpa [assocFind, hk] using h
      have := ih hrest
      simp only [List.length_cons]
      omega

theorem evictLoop_eq_drop (m : Nat) (l : List (CacheKey × String)) :
    evictLoop m l = l.drop (l.length - m) := by
  induction l with
  | nil => simp [evictLoop]
  | cons x xs ih =>
    by_cases h : xs.length + 1 > m
    · have hs : (x :: xs).length - m = (xs.length - m) + 1 := by
        simp only [List.length_cons]; omega
      simp only [evictLoop, if_pos h, hs, List.drop_succ_cons]
      exact ih
    · have hs : xs.length + 1 - m = 0 := by omega
      simp [evictLoop, if_neg h, hs]

theorem evictLoop_length_le (m : Nat) (l : List (CacheKey × String)) :
    (evictLoop m l).length ≤ m := by
  rw [evictLoop_eq_drop, List.length_drop]
  omega

theorem putList_cons (c : TranslationCache) (e : CacheKey × String)
    (rest : List (CacheKey × String)) :
    putList c (e :: rest) = putList (c.put e.1.1 e.1.2.1 e.1.2.2 e.2) rest := by
  simp [putList, List.foldl]

/-- `put` of a key not yet present appends the entry and evicts from the
front; folding such puts over a cache within capacity yields the suffix of
`old ++ new` that fits the capacity. -/
theorem putList_fresh (es : List (CacheKey × String)) (c : TranslationCache)
    (hf : ∀ e ∈ es, assocFind c.cache e.1 = none)
    (hnd : (es.map Prod.fst).Nodup)
    (hle : c.cache.length ≤ c.max_size) :
    (putList c es).cache =
      (c.cache ++ es).drop (c.cache.length + es.length - c.max_size)
    ∧ (putList c es).max_size = c.max_size := by
  induction es generalizing c with
  | nil =>
    have h0 : c.cache.length - c.max_size = 0 := by omega
    simp [putList, h0]
  | cons e rest ih =>
    have hefresh : assocFind c.cache e.1 = none := hf e (List.mem_cons_self e rest)
    have hkey : ((e.1.1, e.1.2.1, e.1.2.2) : CacheKey) = e.1 := rfl
    have hpair : ((e.1, e.2) : CacheKey × String) = e := rfl
    have hc1cache : (c.put e.1.1 e.1.2.1 e.1.2.2 e.2).cache =
        (c.cache ++ [e]).drop (c.cache.length + 1 - c.max_size) := by
      show evictLoop c.max_size (eraseKey c.cache (e.1.1, e.1.2.1, e.1.2.2) ++
          [((e.1.1, e.1.2.1, e.1.2.2), e.2)]) = _
      rw [hkey, eraseKey_of_fresh c.cache e.1 hefresh, evictLoop_eq_drop]
      simp [hpair]
    have hc1max : (c.put e.1.1 e.1.2.1 e.1.2.2 e.2).max_size = c.max_size := rfl
    set c1 := c.put e.1.1 e.1.2.1 e.1.2.2 e.2 with hc1
    have hlen1 : c1.cache.length =
        (c.cache.length + 1) - (c.cache.length + 1 - c.max_size) := by
      rw [hc1cache, List.length_drop]
      simp
    have hnd' : (rest.map Prod.fst).Nodup := by
      simpa using (List.nodup_cons.mp (by simpa using hnd)).2
    have hheadnotmem : e.1 ∉ rest.map Prod.fst := by
      exact (List.nodup_cons.mp (by simpa using hnd)).1
    have hf' : ∀ e' ∈ rest, assocFind c1.cache e'.1 = none := by
      intro e' he'
      rw [assocFind_eq_none_iff]
      intro x hx
      rw [hc1cache] at hx
      have hx' : x ∈ c.cache ++ [e] := List.mem_of_mem_drop hx
      rcases List.mem_append.mp hx' with hxo | hxe
      · exact (assocFind_eq_none_iff c.cache e'.1).mp (hf e' (List.mem_cons_of_mem e he')) x hxo
      · have hxeq : x = e := by simpa using hxe
        subst hxeq
        intro hcontra
        exact hheadnotmem (hcontra ▸ List.mem_map_of_mem Prod.fst he')
    have hle1 : c1.cache.length ≤ c1.max_size := by
      rw [hc1max, hlen1]; omega
    obtain ⟨ihc, ihm⟩ := ih c1 hf' hnd' hle1
    rw [putList_cons, ← hc1]
    constructor
    · have hd1le : c.cache.length + 1 - c.max_size ≤ (c.cache ++ [e]).length := by
        simp only [List.length_append, List.length_cons, List.length_nil]
        omega
      rw [ihc, hlen1, hc1max, hc1cache, ← List.drop_append_of_le_length hd1le,
        List.drop_drop]
      have hassoc : c.cache ++ e :: rest = (c.cache ++ [e]) ++ rest := by simp
      rw [hassoc]
      congr 1
      simp only [List.length_cons]
      omega
    · rw [ihm, hc1max]

theorem assocFind_append_of_none (l1 l2 : List (CacheKey × String)) (k : CacheKey)
    (h : assocFind l1 k = none) : assocFind (l1 ++ l2) k = assocFind l2 k := by
  induction l1 with
  | nil => simp
  | cons e rest ih =>
    obtain ⟨k', v⟩ := e
    by_cases hk : k' = k
    · simp [assocFind, hk] at h
    · have hrest : assocFind rest k = none := by simpa [assocFind, hk] using h
      simpa [assocFind, hk] using ih hrest

theorem get_fst_eq (c : TranslationCache) (t s g : String) :
    (c.get t s g).1 = assocFind c.cache (t, s, g) := by
  cases h : assocFind c.cache (t, s, g) <;> simp [TranslationCache.get, h]

theorem get_snd_of_hit (c : TranslationCache) (t s g v : String)
    (h : assocFind c.cache (t, s, g) = some v) :
    (c.get t s g).2.cache = eraseKey c.cache (t, s, g) ++ [((t, s, g), v)]
    ∧ (c.get t s g).2.max_size = c.max_size := by
  simp [TranslationCache.get, h]

theorem get_snd_of_miss (c : TranslationCache) (t s g : String)
    (h : assocFind c.cache (t, s, g) = none) :
    (c.get t s g).2.cache = c.cache ∧ (c.get t s g).2.max_size = c.max_size := by
  simp [TranslationCache.get, h]

/-- C1 (amended): for a `TranslationCache` with capacity `N ≥ 1`: putting
`N + 1` entries with pairwise-distinct keys into an empty cache leaves
exactly the last `N` of them — only the least-recently-used first entry is
evicted, and a subsequent `get` on its key misses; a `get` on an existing
key in a cache at capacity, followed by `put` of at most `N - 1` other new
keys, does not evict that key (`get` promotes the entry to
most-recently-used); and after `clear()`, `size` is `0` and every `get` on
a previously-cached key misses.  (The original claim allowed `N` other new
keys after the `get`; the `N`-th new `put` evicts the promoted key, see the
counterexample.) -/
theorem cache_lru_behavior
    (N : Nat) (hN : 1 ≤ N)
    (es : List (CacheKey × String)) (hlen : es.length = N + 1)
    (hnd : (es.map Prod.fst).Nodup)
    (e0 : CacheKey × String) (hhead : es.head? = some e0)
    (c : TranslationCache) (t s g v : String)
    (hcap : c.max_size = N) (hsize : c.cache.length ≤ N)
    (hhit : assocFind c.cache (t, s, g) = some v)
    (es' : List (CacheKey × String)) (hlen' : es'.length ≤ N - 1)
    (hnd' : (es'.map Prod.fst).Nodup)
    (hfresh' : ∀ e ∈ es', assocFind c.cache e.1 = none ∧ e.1 ≠ (t, s, g)) :
    (putList (TranslationCache.init N) es).cache = es.drop 1
    ∧ ((putList (TranslationCache.init N) es).get e0.1.1 e0.1.2.1 e0.1.2.2).1 = none
    ∧ ((putList (c.get t s g).2 es').get t s g).1 = some v
    ∧ c.clear.size = 0
    ∧ (∀ t' s' g', (c.clear.get t' s' g').1 = none) := by
  obtain ⟨ha, hamax⟩ := putList_fresh es (TranslationCache.init N)
    (fun e _ => rfl) hnd (by simp [TranslationCache.init])
  have hacache : (putList (TranslationCache.init N) es).cache = es.drop 1 := by
    rw [ha]
    simp only [TranslationCache.init, List.nil_append, List.length_nil, Nat.zero_add]
    congr 1
    omega
  refine ⟨hacache, ?_, ?_, rfl, fun t' s' g' => by rw [get_fst_eq]; rfl⟩
  · obtain ⟨ea, tail, rfl⟩ : ∃ ea tail, es = ea :: tail := by
      cases es with
      | nil => simp at hhead
      | cons a l => exact ⟨a, l, rfl⟩
    have he0 : ea = e0 := by simpa using hhead
    subst he0
    rw [get_fst_eq, hacache]
    show assocFind tail ((ea.1.1, ea.1.2.1, ea.1.2.2) : CacheKey) = none
    have hkey0 : ((ea.1.1, ea.1.2.1, ea.1.2.2) : CacheKey) = ea.1 := rfl
    rw [hkey0, assocFind_eq_none_iff]
    intro x hx hcontra
    have hhd : ea.1 ∉ tail.map Prod.fst := by
      have h' : (List.map Prod.fst (ea :: tail)).Nodup := hnd
      rw [List.map_cons, List.nodup_cons] at h'
      exact h'.1
    exact hhd (hcontra ▸ List.mem_map_of_mem Prod.fst hx)
  · obtain ⟨hc2cache, hc2maxeq⟩ := get_snd_of_hit c t s g v hhit
    set c2 := (c.get t s g).2 with hc2
    have hc2max : c2.max_size = N := by rw [hc2maxeq, hcap]
    have hElen : (eraseKey c.cache (t, s, g)).length + 1 ≤ N :=
      le_trans (eraseKey_length_lt c.cache (t, s, g) v hhit) hsize
    have hf2 : ∀ e ∈ es', assocFind c2.cache e.1 = none := by
      intro e he
      rw [hc2cache, assocFind_eq_none_iff]
      intro x hx
      rcases List.mem_append.mp hx with hxE | hxK
      · exact (assocFind_eq_none_iff _ _).mp (hfresh' e he).1 x
          (mem_eraseKey c.cache (t, s, g) x hxE).1
      · have hxeq : x = ((t, s, g), v) := by simpa using hxK
        subst hxeq
        exact fun hcontra => (hfresh' e he).2 hcontra.symm
    have hle2 : c2.cache.length ≤ c2.max_size := by
      rw [hc2cache, hc2max]
      simp only [List.length_append, List.length_cons, List.length_nil]
      omega
    obtain ⟨hpc, hpm⟩ := putList_fresh es' c2 hf2 hnd' hle2
    have hdle : c2.cache.length + es'.length - c2.max_size
        ≤ (eraseKey c.cache (t, s, g)).length := by
      rw [hc2cache, hc2max]
      simp only [List.length_append, List.length_cons, List.length_nil]
      omega
    have hstep : ∀ D : Nat, D ≤ (eraseKey c.cache (t, s, g)).length →
        ((eraseKey c.cache (t, s, g) ++ [((t, s, g), v)]) ++ es').drop D =
          (eraseKey c.cache (t, s, g)).drop D ++ ([((t, s, g), v)] ++ es') := by
      intro D hD
      rw [List.append_assoc]
      exact List.drop_append_of_le_length hD
    have hfinal : (putList c2 es').cache =
        (eraseKey c.cache (t, s, g)).drop
          (c2.cache.length + es'.length - c2.max_size)
        ++ ([((t, s, g), v)] ++ es') := by
      rw [hpc]
      rw [show c2.cache ++ es' = (eraseKey c.cache (t, s, g) ++ [((t, s, g), v)]) ++ es'
        from by rw [hc2cache]]
      exact hstep _ hdle
    rw [get_fst_eq, hfinal]
    rw [assocFind_append_of_none]
    · simp [assocFind]
    · rw [assocFind_eq_none_iff]
      intro x hx
      exact (mem_eraseKey c.cache (t, s, g) x (List.mem_of_mem_drop hx)).2

/-- Concrete entries for exercising the LRU cache: three distinct keys. -/
def lruEntriesA : List (CacheKey × String) :=
  [(("alpha", "s", "t"), "1"), (("beta", "s", "t"), "2"), (("gamma", "s", "t"), "3")]

/-- A cache of capacity 2 holding two entries, `("k","s","t")` most recent. -/
def lruCacheB : TranslationCache :=
  { max_size := 2, cache := [(("x", "s", "t"), "vx"), (("k", "s", "t"), "v")],
    hits := 0, misses := 0 }

/-- One fresh entry, distinct from everything in `lruCacheB`. -/
def lruEntriesB : List (CacheKey × String) := [(("y", "s", "t"), "vy")]

theorem cache_lru_behavior_witness :
    (putList (TranslationCache.init 2) lruEntriesA).cache = lruEntriesA.drop 1
    ∧ ((putList (TranslationCache.init 2) lruEntriesA).get "alpha" "s" "t").1 = none
    ∧ ((putList (lruCacheB.get "k" "s" "t").2 lruEntriesB).get "k" "s" "t").1 = some "v"
    ∧ lruCacheB.clear.size = 0
    ∧ (∀ t' s' g', (lruCacheB.clear.get t' s' g').1 = none) :=
  cache_lru_behavior 2 (by decide) lruEntriesA (by decide) (by decide)
    (("alpha", "s", "t"), "1") (by decide) lruCacheB "k" "s" "t" "v" (by decide)
    (by decide) (by decide) lruEntriesB (by decide) (by decide)
    (by decide)

/-- C1 counterexample: with capacity `N = 1`, after `put`-ing key
`("a","s","t")` and `get`-ing it (a hit that promotes it), a `put` of
`N = 1` other new key evicts it: the subsequent `get` misses, refuting the
original claim that a `get` followed by `N` other new `put`s never evicts
the gotten key. -/
theorem cache_lru_promotion_counterexample :
    (((((TranslationCache.init 1).put "a" "s" "t" "va").get "a" "s" "t").2.put
        "b" "s" "t" "vb").get "a" "s" "t").1 = none := by decide

/-- C5 (amended): `size ≤ capacity` holds after every cache operation
(`put` unconditionally evicts least-recently-used entries down to the
current capacity, even one shrunk below the current size; `get` and
`clear` preserve the bound) — but the capacity shrink performed by
`update_settings` (`self.cache.max_size = settings.max_cache_size`) does
NOT evict immediately: eviction down to the new bound only happens at the
next `put` (see the counterexample). -/
theorem cache_size_le_capacity (c : TranslationCache) (t s g v : String) (m : Nat)
    (hc : c.size ≤ c.max_size) :
    (c.put t s g v).size ≤ (c.put t s g v).max_size
    ∧ (c.get t s g).2.size ≤ (c.get t s g).2.max_size
    ∧ c.clear.size ≤ c.clear.max_size
    ∧ ((c.setMaxSize m).put t s g v).size ≤ m := by
  refine ⟨evictLoop_length_le _ _, ?_, Nat.zero_le _, evictLoop_length_le _ _⟩
  cases hfind : assocFind c.cache (t, s, g) with
  | none =>
    obtain ⟨h1, h2⟩ := get_snd_of_miss c t s g hfind
    show (c.get t s g).2.cache.length ≤ _
    rw [h1, h2]
    exact hc
  | some w =>
    obtain ⟨h1, h2⟩ := get_snd_of_hit c t s g w hfind
    show (c.get t s g).2.cache.length ≤ _
    rw [h1, h2]
    simp only [List.length_append, List.length_cons, List.length_nil]
    have := eraseKey_length_lt c.cache (t, s, g) w hfind
    have hsz : c.cache.length ≤ c.max_size := hc
    omega

theorem cache_size_le_capacity_witness :
    ((TranslationCache.init 2).put "a" "s" "t" "v").size
        ≤ ((TranslationCache.init 2).put "a" "s" "t" "v").max_size
    ∧ ((TranslationCache.init 2).get "a" "s" "t").2.size
        ≤ ((TranslationCache.init 2).get "a" "s" "t").2.max_size
    ∧ (TranslationCache.init 2).clear.size ≤ (TranslationCache.init 2).clear.max_size
    ∧ (((TranslationCache.init 2).setMaxSize 1).put "a" "s" "t" "v").size ≤ 1 :=
  cache_size_le_capacity (TranslationCache.init 2) "a" "s" "t" "v" 1 (by decide)

/-- C5 counterexample: a capacity-2 cache holding two entries, shrunk to
capacity 1 the way `update_settings` does it (only `max_size` is
reassigned), is left with `size = 2 > 1 = max_size`: the shrink does not
evict immediately, refuting the claimed invariant. -/
theorem cache_shrink_counterexample :
    ¬ ((((TranslationCache.init 2).put "a" "s" "t" "1").put "b" "s" "t" "2").setMaxSize 1).size
      ≤ ((((TranslationCache.init 2).put "a" "s" "t" "1").put "b" "s" "t" "2").setMaxSize 1).max_size := by
  decide

/-! ## Change detector (`src/core/frame_differ.py`)

`FrameDiffer.has_changed` first converts the captured frame to grayscale
and area-resamples it down to `downsample_width` when wider; that cv2
preprocessing is deterministic, so the embedding works directly on the
resulting downsampled grayscale frame: a shape (`rows × cols`) plus the
pixel intensities as rationals on the 0–255 scale.  Bit-identical input
frames yield equal `GrayFrame`s. -/

/-- A downsampled grayscale frame. -/
structure GrayFrame where
  rows : Nat
  cols : Nat
  data : List ℚ
  deriving Repr, DecidableEq

/-- `np.mean(np.abs(gray.astype(float) - self._prev_frame.astype(float)))`:
sum of pointwise absolute differences divided by the pixel count. -/
def meanAbsDiff (g p : GrayFrame) : ℚ :=
  (List.zipWith (fun x y => |x - y|) g.data p.data).sum / ((g.rows : ℚ) * g.cols)

/-- State of `FrameDiffer`: the threshold, the downsample width, and the
stored previous downsampled frame. -/
structure FrameDiffer where
  threshold : ℚ
  downsample_width : Nat
  prev_frame : Option GrayFrame
  deriving Repr, DecidableEq

/-- `FrameDiffer.__init__(threshold=5.0, downsample_width=320)`. -/
def FrameDiffer.init (threshold : ℚ) (downsample_width : Nat) : FrameDiffer :=
  { threshold := threshold, downsample_width := downsample_width, prev_frame := none }

/-- `FrameDiffer.has_changed` on the downsampled grayscale frame: first
call stores and reports changed; a shape mismatch stores and reports
changed; otherwise the mean absolute difference is compared against the
threshold and the reference is replaced either way. -/
def FrameDiffer.hasChanged (d : FrameDiffer) (gray : GrayFrame) : Bool × FrameDiffer :=
  match d.prev_frame with
  | none => (true, { d with prev_frame := some gray })
  | some p =>
      if (gray.rows, gray.cols) ≠ (p.rows, p.cols) then
        (true, { d with prev_frame := some gray })
      else
        (decide (meanAbsDiff gray p > d.threshold), { d with prev_frame := some gray })

/-- `FrameDiffer.reset`. -/
def FrameDiffer.reset (d : FrameDiffer) : FrameDiffer :=
  { d with prev_frame := none }

theorem meanAbsDiff_self (g : GrayFrame) : meanAbsDiff g g = 0 := by
  unfold meanAbsDiff
  have hz : (List.zipWith (fun x y : ℚ => |x - y|) g.data g.data).sum = 0 := by
    induction g.data with
    | nil => simp
    | cons x xs ih => simp [ih]
  rw [hz]
  simp

/-- C4: for the change detector with the default threshold 5.0: the first
`has_changed` call on a fresh instance returns true; two consecutive calls
with bit-identical frames return false on the second; a call whose
downsampled shape differs from the stored previous shape returns true;
after `reset()` the next call returns true regardless of the frame; and
the stored reference is replaced with the current downsampled frame on
every call. -/
theorem frameDiffer_spec (g g2 : GrayFrame) (d : FrameDiffer) :
    ((FrameDiffer.init 5 320).hasChanged g).1 = true
    ∧ (((FrameDiffer.init 5 320).hasChanged g).2.hasChanged g).1 = false
    ∧ (∀ p, d.prev_frame = some p → (g2.rows, g2.cols) ≠ (p.rows, p.cols) →
        (d.hasChanged g2).1 = true)
    ∧ (d.reset.hasChanged g).1 = true
    ∧ (d.hasChanged g).2.prev_frame = some g := by
  refine ⟨rfl, ?_, ?_, rfl, ?_⟩
  · show (FrameDiffer.hasChanged ⟨5, 320, some g⟩ g).1 = false
    simp only [FrameDiffer.hasChanged, ne_eq, not_true_eq_false, if_false,
      meanAbsDiff_self]
    norm_num
  · intro p hp hne
    simp [FrameDiffer.hasChanged, hp, hne]
  · unfold FrameDiffer.hasChanged
    cases d.prev_frame with
    | none => rfl
    | some p =>
      by_cases h : (g.rows, g.cols) ≠ (p.rows, p.cols) <;> simp [h]

def grayW : GrayFrame := { rows := 1, cols := 1, data := [0] }

def grayW2 : GrayFrame := { rows := 2, cols := 2, data := [0, 0, 0, 0] }

def differW : FrameDiffer :=
  { threshold := 5, downsample_width := 320, prev_frame := some grayW }

theorem frameDiffer_spec_witness :
    ((FrameDiffer.init 5 320).hasChanged grayW).1 = true
    ∧ (((FrameDiffer.init 5 320).hasChanged grayW).2.hasChanged grayW).1 = false
    ∧ (differW.hasChanged grayW2).1 = true
    ∧ (differW.reset.hasChanged grayW).1 = true
    ∧ (differW.hasChanged grayW).2.prev_frame = some grayW :=
  have h := frameDiffer_spec grayW grayW2 differW
  ⟨h.1, h.2.1, h.2.2.1 grayW rfl (by decide), h.2.2.2.1, h.2.2.2.2⟩

/-! ## Text blocks and the paragraph merger (`src/core/ocr_engine.py`) -/

/-- Modelled from the spec: the `TextBlock` dataclass
(`src/models/text_block.py` is not present under `src/`); spec §3 and the
constructor calls in `ocr_engine.py`/`pipeline.py` give its fields —
integer geometry, recognized `text`, `confidence`, `font_size`, and
optional `translation`, `fg_color`, `bg_color` defaulting to unset. -/
structure TextBlock where
  x : Int
  y : Int
  width : Int
  height : Int
  text : String
  confidence : ℚ
  font_size : Nat
  translation : Option String := none
  fg_color : Option (Int × Int × Int) := none
  bg_color : Option (Int × Int × Int) := none
  deriving Repr, DecidableEq

/-- `font_size = max(8, int(h * 0.75))` from `OCREngine.detect`
(`src/core/ocr_engine.py` line 108); Python `int()` truncates, which on a
non-negative height is the floor. -/
def fontSizeOfHeight (h : Nat) : Nat :=
  max 8 (Nat.floor ((h : ℚ) * 0.75))

/-- Modelled from the spec: the claimed formula `max(8, round(height*0.75))`
with Python `round` (banker's rounding, ties to even), for comparison
against `fontSizeOfHeight` which is what the code computes. -/
def pyRound (x : ℚ) : Int :=
  if x - Int.floor x < 1 / 2 then Int.floor x
  else if x - Int.floor x > 1 / 2 then Int.floor x + 1
  else if Int.floor x % 2 = 0 then Int.floor x else Int.floor x + 1

/-- Modelled from the spec: `font_size` as the spec claims it is derived. -/
def fontSizeSpec (h : Nat) : Int :=
  max 8 (pyRound ((h : ℚ) * 0.75))

/-- The merge branch of `OCREngine._merge_paragraph_lines`: expanded bbox
(`new_x`/`new_y`/`new_x2`/`new_y2`), joined text, confidence 1.0, and the
earlier block's font size; other fields take the dataclass defaults. -/
def mergeTwo (current next_block : TextBlock) : TextBlock :=
  let new_x := min current.x next_block.x
  let new_y := current.y
  let new_x2 := max (current.x + current.width) (next_block.x + next_block.width)
  let new_y2 := next_block.y + next_block.height
  { x := new_x, y := new_y, width := new_x2 - new_x, height := new_y2 - new_y,
    text := current.text ++ " " ++ next_block.text, confidence := 1,
    font_size := current.font_size }

/-- The `same_paragraph` condition: vertical gap below 1.5 line heights and
left edges within 30% of the current width.  The float constant `0.3` is
taken exactly as 3/10; for integer-valued operands the strict comparisons
agree with the float ones on all realistic sizes. -/
def sameParagraph (current next_block : TextBlock) : Bool :=
  let gap := next_block.y - (current.y + current.height)
  let x_diff := |next_block.x - current.x|
  decide (((gap : ℚ) < (current.height : ℚ) * 1.5) ∧ ((x_diff : ℚ) < (current.width : ℚ) * 0.3))

/-- The fold of `_merge_paragraph_lines` over the sorted tail: keep merging
into the accumulator while `same_paragraph`, else emit and restart. -/
def mergeLoop (current : TextBlock) : List TextBlock → List TextBlock
  | [] => [current]
  | next_block :: rest =>
      if sameParagraph current next_block then mergeLoop (mergeTwo current next_block) rest
      else current :: mergeLoop next_block rest

/-- `OCREngine._merge_paragraph_lines`: inputs of length ≤ 1 pass through;
otherwise sort stably ascending by `y` (Python's `list.sort` is stable, as
is insertion sort) and fold. -/
def mergeParagraphLines (blocks : List TextBlock) : List TextBlock :=
  if blocks.length ≤ 1 then blocks
  else
    match List.insertionSort (fun a b => a.y ≤ b.y) blocks with
    | [] => []
    | b :: rest => mergeLoop b rest

/-- C6 (amended): the font size assigned from a bounding-box height `h` is
`max(8, floor(h * 0.75))` — Python `int()` truncates toward zero, it does
not round — equivalently `max 8 (3 * h / 4)` in integer division.  (The
original claim's `round` differs at e.g. `h = 13`, see the
counterexample.) -/
theorem fontSize_eq_floor (h : Nat) : fontSizeOfHeight h = max 8 (3 * h / 4) := by
  unfold fontSizeOfHeight
  congr 1
  rw [show ((h : ℚ) * 0.75) = ((3 * h : ℕ) : ℚ) / ((4 : ℕ) : ℚ) from by push_cast; ring]
  exact Nat.floor_div_eq_div (3 * h) 4

/-- C6 counterexample: at height 13 the code computes
`max(8, int(13 * 0.75)) = max(8, int(9.75)) = 9`, while the claimed
`max(8, round(13 * 0.75)) = max(8, 10) = 10`. -/
theorem fontSize_round_counterexample :
    fontSizeOfHeight 13 = 9 ∧ fontSizeSpec 13 = 10 := by
  constructor
  · unfold fontSizeOfHeight
    rw [show ((13 : ℕ) : ℚ) * 0.75 = ((39 : ℕ) : ℚ) / ((4 : ℕ) : ℚ) from by norm_num,
      Nat.floor_div_eq_div]
    decide
  · unfold fontSizeSpec pyRound
    norm_num

/-- C3 (amended): when the Paragraph Merger merges a pair (sorted so
`b1.y ≤ b2.y`, gap < 1.5·`b1.height`, |`b2.x` − `b1.x`| < 0.3·`b1.width`),
the merged result is a new block whose horizontal extent is the union of
the two (left edge `min`, right edge `max` of the right edges), whose top
is `b1.y` and whose bottom is `b2.y + b2.height` — the union of the two
bounding boxes exactly when `b2`'s bottom edge is not above `b1`'s, but
not in general (see the counterexample) — whose text is
`b1.text + " " + b2.text`, and whose `font_size` equals `b1.font_size`. -/
theorem merge_pair_spec (b1 b2 : TextBlock)
    (hy : b1.y ≤ b2.y) (hmerge : sameParagraph b1 b2 = true) :
    mergeParagraphLines [b1, b2] = [mergeTwo b1 b2]
    ∧ (mergeTwo b1 b2).x = min b1.x b2.x
    ∧ (mergeTwo b1 b2).x + (mergeTwo b1 b2).width = max (b1.x + b1.width) (b2.x + b2.width)
    ∧ (mergeTwo b1 b2).y = b1.y
    ∧ (mergeTwo b1 b2).y + (mergeTwo b1 b2).height = b2.y + b2.height
    ∧ (mergeTwo b1 b2).text = b1.text ++ " " ++ b2.text
    ∧ (mergeTwo b1 b2).font_size = b1.font_size := by
  refine ⟨?_, rfl, ?_, rfl, ?_, rfl, rfl⟩
  · have hlen : ¬ ([b1, b2].length ≤ 1) := by simp
    have hsort : List.insertionSort (fun a b : TextBlock => a.y ≤ b.y) [b1, b2] = [b1, b2] := by
      simp only [List.insertionSort, List.orderedInsert]
      rw [if_pos hy]
    unfold mergeParagraphLines
    rw [if_neg hlen, hsort]
    show (if sameParagraph b1 b2 then mergeLoop (mergeTwo b1 b2) [] else b1 :: mergeLoop b2 [])
      = [mergeTwo b1 b2]
    rw [if_pos hmerge]
    rfl
  · show min b1.x b2.x + (max (b1.x + b1.width) (b2.x + b2.width) - min b1.x b2.x)
      = max (b1.x + b1.width) (b2.x + b2.width)
    ring
  · show b1.y + (b2.y + b2.height - b1.y) = b2.y + b2.height
    ring

/-- Upper line of the spec's concrete merge example: `y=0, h=20`. -/
def blockW1 : TextBlock :=
  { x := 0, y := 0, width := 100, height := 20, text := "A", confidence := 1, font_size := 15 }

/-- Lower line of the spec's concrete merge example: `y=25, h=20`, equal `x`. -/
def blockW2 : TextBlock :=
  { x := 0, y := 25, width := 100, height := 20, text := "B", confidence := 1, font_size := 15 }

theorem merge_pair_spec_witness :
    mergeParagraphLines [blockW1, blockW2] = [mergeTwo blockW1 blockW2]
    ∧ (mergeTwo blockW1 blockW2).text = "A" ++ " " ++ "B"
    ∧ (mergeTwo blockW1 blockW2).y = 0
    ∧ (mergeTwo blockW1 blockW2).height = 45 :=
  have h := merge_pair_spec blockW1 blockW2 (by decide)
    (by unfold sameParagraph blockW1 blockW2; simp only [decide_eq_true_eq]; norm_num)
  ⟨h.1, h.2.2.2.2.2.1, h.2.2.2.1, by decide⟩

/-- A tall first line: bbox `[0,20)` vertically. -/
def blockO1 : TextBlock :=
  { x := 0, y := 0, width := 100, height := 20, text := "A", confidence := 1, font_size := 15 }

/-- A short second line nested inside the first: bbox `[5,10)` vertically. -/
def blockO2 : TextBlock :=
  { x := 0, y := 5, width := 10, height := 5, text := "B", confidence := 1, font_size := 15 }

/-- C3 counterexample: these two blocks satisfy the merge condition
(gap = −15 < 30, equal left edges), but the merged bounding box ends at
`y = 10` while input `blockO1` extends to `y = 20`: the merged bbox is not
the union of the two input bboxes. -/
theorem merge_union_counterexample :
    mergeParagraphLines [blockO1, blockO2] = [mergeTwo blockO1 blockO2]
    ∧ (mergeTwo blockO1 blockO2).y + (mergeTwo blockO1 blockO2).height = 10
    ∧ blockO1.y + blockO1.height = 20 := by
  have hmerge : sameParagraph blockO1 blockO2 = true := by
    unfold sameParagraph blockO1 blockO2
    simp only [decide_eq_true_eq]
    norm_num
  refine ⟨?_, by decide, by decide⟩
  have hlen : ¬ ([blockO1, blockO2].length ≤ 1) := by simp
  have hy : blockO1.y ≤ blockO2.y := by decide
  have hsort : List.insertionSort (fun a b : TextBlock => a.y ≤ b.y) [blockO1, blockO2]
      = [blockO1, blockO2] := by
    simp only [List.insertionSort, List.orderedInsert]
    rw [if_pos hy]
  unfold mergeParagraphLines
  rw [if_neg hlen, hsort]
  show (if sameParagraph blockO1 blockO2 then mergeLoop (mergeTwo blockO1 blockO2) []
    else blockO1 :: mergeLoop blockO2 []) = [mergeTwo blockO1 blockO2]
  rw [if_pos hmerge]
  rfl

/-! ## Style extractor (`src/core/style_extractor.py`)

The frame is a dense BGR pixel buffer: height, width, and a pixel map with
float channel values embedded as rationals.  The geometry (margin, ROI
clamping, border strips, inner-ROI clipping, pixel-count guard) is
embedded from the source; `cv2.kmeans`, the one external numeric call that
can fail, becomes an oracle returning the two cluster centers or an error
(the Python `except Exception` per block).  The Euclidean-norm comparison
of the two centers against the background is embedded as a comparison of
squared distances, which is order-equivalent. -/

/-- A BGR pixel with float channels. -/
abbrev Pixel := ℚ × ℚ × ℚ

/-- A BGR frame: `frame.shape[:2]` plus the pixel map (row, column). -/
structure Frame where
  height : Nat
  width : Nat
  px : Nat → Nat → Pixel

/-- Python `int()` on a float: truncation toward zero. -/
def truncInt (x : ℚ) : Int :=
  x.num / (x.den : Int)

/-- `np.median` of a 1-d array: middle element of the sorted list, or the
mean of the two middle elements for even length. -/
def median (l : List ℚ) : ℚ :=
  let s := List.insertionSort (· ≤ ·) l
  if l.length = 0 then 0
  else if l.length % 2 = 1 then s.getD (l.length / 2) 0
  else (s.getD (l.length / 2 - 1) 0 + s.getD (l.length / 2) 0) / 2

/-- Squared Euclidean distance between two pixels; comparing squared
distances is equivalent to comparing `np.linalg.norm` values. -/
def dist2 (p q : Pixel) : ℚ :=
  (p.1 - q.1) ^ 2 + (p.2.1 - q.2.1) ^ 2 + (p.2.2 - q.2.2) ^ 2

/-- Pixels of the ROI anchored at `(y1, x1)` for the given local row and
column index lists, row-major like `reshape(-1, 3)`. -/
def roiPixels (f : Frame) (y1 x1 : Int) (rows cols : List Nat) : List Pixel :=
  rows.flatMap fun ry => cols.map fun cx => f.px (y1 + (ry : Int)).toNat (x1 + (cx : Int)).toNat

/-- The expanded sampling ROI of a block: margin `max(4, height // 2)`,
clamped to the frame bounds. -/
structure RoiGeom where
  x1 : Int
  y1 : Int
  x2 : Int
  y2 : Int
  margin : Int

/-- Lines 32–38 of `style_extractor.py`: margin and clamped expanded ROI. -/
def roiGeom (f : Frame) (b : TextBlock) : RoiGeom :=
  let margin := max 4 (Int.fdiv b.height 2)
  { x1 := max 0 (b.x - margin), y1 := max 0 (b.y - margin),
    x2 := min (f.width : Int) (b.x + b.width + margin),
    y2 := min (f.height : Int) (b.y + b.height + margin),
    margin := margin }

/-- Lines 66–77: the inner ROI (the original bbox in ROI-local
coordinates, clipped), flattened to its pixel list. -/
def innerPixels (f : Frame) (b : TextBlock) : List Pixel :=
  let g := roiGeom f b
  let roi_h := (g.y2 - g.y1).toNat
  let roi_w := (g.x2 - g.x1).toNat
  let ix1 := max 0 (b.x - g.x1)
  let iy1 := max 0 (b.y - g.y1)
  let ix2 := min (roi_w : Int) (b.x - g.x1 + b.width)
  let iy2 := min (roi_h : Int) (b.y - g.y1 + b.height)
  roiPixels f g.y1 g.x1
    ((List.range (iy2 - iy1).toNat).map fun r => iy1.toNat + r)
    ((List.range (ix2 - ix1).toNat).map fun c => ix1.toNat + c)

/-- The per-block body of `StyleExtractor.extract` (the `try` suite):
`none` is a `continue` (degenerate ROI, empty ROI, or fewer than 2 inner
pixels), `some` carries the `(bg_rgb, fg_rgb)` pair to store, and an error
is an exception escaping the external k-means call. -/
def processBlockBody (km : List Pixel → Except String (Pixel × Pixel))
    (f : Frame) (b : TextBlock) :
    Except String (Option ((Int × Int × Int) × (Int × Int × Int))) :=
  let g := roiGeom f b
  if g.x2 ≤ g.x1 ∨ g.y2 ≤ g.y1 then pure none
  else
    let roi_h := (g.y2 - g.y1).toNat
    let roi_w := (g.x2 - g.x1).toNat
    if roi_h * roi_w = 0 then pure none
    else
      let strip := (max 2 (Int.fdiv g.margin 2)).toNat
      let top := roiPixels f g.y1 g.x1 (List.range strip) (List.range roi_w)
      let bottom := roiPixels f g.y1 g.x1
        ((List.range strip).map fun r => roi_h - strip + r) (List.range roi_w)
      let left := roiPixels f g.y1 g.x1 (List.range roi_h) (List.range strip)
      let right := roiPixels f g.y1 g.x1 (List.range roi_h)
        ((List.range strip).map fun c => roi_w - strip + c)
      let border := (if strip < roi_h then top ++ bottom else [])
        ++ (if strip < roi_w then left ++ right else [])
      let bgPix : Pixel :=
        if border.isEmpty then (255, 255, 255)
        else (median (border.map Prod.fst),
              median (border.map fun p => p.2.1),
              median (border.map fun p => p.2.2))
      let pixels := innerPixels f b
      if pixels.length < 2 then pure none
      else do
        let centers ← km pixels
        let fgPix := if dist2 centers.1 bgPix > dist2 centers.2 bgPix
          then centers.1 else centers.2
        pure (some ((truncInt bgPix.2.2, truncInt bgPix.2.1, truncInt bgPix.1),
                    (truncInt fgPix.2.2, truncInt fgPix.2.1, truncInt fgPix.1)))

/-- One iteration of the `for block in blocks` loop: store both colors on
success, leave the block untouched on a `continue` or a caught
exception. -/
def processBlock (km : List Pixel → Except String (Pixel × Pixel))
    (f : Frame) (b : TextBlock) : TextBlock :=
  match processBlockBody km f b with
  | Except.ok (some (bg, fg)) => { b with bg_color := some bg, fg_color := some fg }
  | Except.ok none => b
  | Except.error _ => b

/-- `StyleExtractor.extract`: every block is processed independently; the
function itself always returns (exceptions are caught per block). -/
def extract (km : List Pixel → Except String (Pixel × Pixel))
    (f : Frame) (blocks : List TextBlock) : List TextBlock :=
  blocks.map (processBlock km f)

/-- C8: `StyleExtractor.extract` never raises: it totally maps the block
list, each block independently of the others; a block whose per-block body
raises (modelled by any failing k-means oracle) is returned unchanged, its
colors left as they were (unset stays unset); and a block whose inner ROI
has fewer than 2 pixels is skipped without error and returned unchanged. -/
theorem styleExtractor_spec (km : List Pixel → Except String (Pixel × Pixel))
    (f : Frame) (blocks : List TextBlock) (b b2 : TextBlock) (e : String)
    (herr : processBlockBody km f b = Except.error e)
    (hsmall : (innerPixels f b2).length < 2) :
    (extract km f blocks).length = blocks.length
    ∧ (∀ i : Nat, (extract km f blocks)[i]? = (blocks[i]?).map (processBlock km f))
    ∧ processBlock km f b = b
    ∧ processBlock km f b2 = b2 := by
  refine ⟨List.length_map blocks _, fun i => List.getElem?_map _ blocks i, ?_, ?_⟩
  · unfold processBlock
    rw [herr]
  · unfold processBlock processBlockBody
    simp only []
    split_ifs with h1 h2
    · rfl
    · rfl
    · rfl

/-- A concrete 10×10 all-black frame. -/
def frameW : Frame := { height := 10, width := 10, px := fun _ _ => (0, 0, 0) }

/-- A k-means oracle that always raises. -/
def kmErr : List Pixel → Except String (Pixel × Pixel) := fun _ => Except.error "boom"

/-- A 2×2 block whose inner ROI has 4 pixels: reaches the k-means call. -/
def blockErr : TextBlock :=
  { x := 2, y := 2, width := 2, height := 2, text := "e", confidence := 1, font_size := 8 }

/-- A 1×1 block: its inner ROI has a single pixel. -/
def blockSmall : TextBlock :=
  { x := 2, y := 2, width := 1, height := 1, text := "s", confidence := 1, font_size := 8 }

theorem styleExtractor_spec_witness :
    (extract kmErr frameW [blockErr, blockSmall]).length = [blockErr, blockSmall].length
    ∧ (∀ i : Nat, (extract kmErr frameW [blockErr, blockSmall])[i]? =
        ([blockErr, blockSmall][i]?).map (processBlock kmErr frameW))
    ∧ processBlock kmErr frameW blockErr = blockErr
    ∧ processBlock kmErr frameW blockSmall = blockSmall :=
  styleExtractor_spec kmErr frameW [blockErr, blockSmall] blockErr blockSmall "boom"
    (by rfl) (by decide)

/-! ## Translation engine (`src/core/translation_engine.py`)

The NLLB model + tokenizer pipeline inside the `try` block (tokenize,
`generate`, `batch_decode`) is an external collaborator: it becomes an
oracle producing the decoded strings or raising.  The engine state keeps
the `_loaded` flag and `_current_src_lang`. -/

/-- State of `TranslationEngine` relevant to `translate_batch`. -/
structure TranslationEngine where
  loaded : Bool
  current_src_lang : Option String
  deriving Repr, DecidableEq

/-- `TranslationEngine.translate_batch`: not loaded → return the input
texts; empty input → return `[]`; otherwise update the tokenizer source
language if changed and run the model, falling back to the input texts if
the model call raises. -/
def translate_batch (model : List String → String → String → Except String (List String))
    (eng : TranslationEngine) (texts : List String) (source_lang target_lang : String) :
    List String × TranslationEngine :=
  if eng.loaded = false then (texts, eng)
  else if texts.isEmpty then ([], eng)
  else
    let eng' := if eng.current_src_lang ≠ some source_lang
      then { eng with current_src_lang := some source_lang } else eng
    match model texts source_lang target_lang with
    | Except.ok results => (results, eng')
    | Except.error _ => (texts, eng')

/-- C10: `translate_batch` never raises and returns a list of the input's
length: `[]` for empty input, the input texts unchanged when the model is
not loaded or the model call raises (callers may silently receive
untranslated source text), and the model's outputs on success — where the
model collaborator (HF `generate`/`batch_decode`) yields one decoded
string per input row, stated as the hypothesis `hmodel`. -/
theorem translate_batch_spec
    (model : List String → String → String → Except String (List String))
    (eng : TranslationEngine) (texts : List String) (src tgt : String)
    (hmodel : ∀ res, model texts src tgt = Except.ok res → res.length = texts.length) :
    (translate_batch model eng texts src tgt).1.length = texts.length
    ∧ (texts = [] → (translate_batch model eng texts src tgt).1 = [])
    ∧ (eng.loaded = false → (translate_batch model eng texts src tgt).1 = texts)
    ∧ (∀ e, model texts src tgt = Except.error e →
        (translate_batch model eng texts src tgt).1 = texts) := by
  by_cases hl : eng.loaded = false
  · have h1 : translate_batch model eng texts src tgt = (texts, eng) := by
      unfold translate_batch; rw [if_pos hl]
    rw [h1]
    exact ⟨rfl, fun h => h, fun _ => rfl, fun _ _ => rfl⟩
  · by_cases he : texts.isEmpty
    · have hemp : texts = [] := List.isEmpty_iff.mp he
      subst hemp
      have h1 : translate_batch model eng [] src tgt = ([], eng) := by
        unfold translate_batch; rw [if_neg hl]; rfl
      rw [h1]
      exact ⟨rfl, fun _ => rfl, fun _ => rfl, fun _ _ => rfl⟩
    · have hne : texts ≠ [] := fun h => by subst h; simp at he
      have h1 : translate_batch model eng texts src tgt =
          ((match model texts src tgt with
            | Except.ok r => r
            | Except.error _ => texts),
           if eng.current_src_lang ≠ some src
             then { eng with current_src_lang := some src } else eng) := by
        unfold translate_batch
        rw [if_neg hl, if_neg he]
        cases model texts src tgt <;> rfl
      cases hm : model texts src tgt with
      | ok results =>
        have h2 : (translate_batch model eng texts src tgt).1 = results := by
          rw [h1, hm]
        exact ⟨by rw [h2, hmodel results hm], fun h => absurd h hne,
          fun h => absurd h hl, fun e hc => absurd hc (by simp)⟩
      | error err =>
        have h2 : (translate_batch model eng texts src tgt).1 = texts := by
          rw [h1, hm]
        exact ⟨by rw [h2], fun h => absurd h hne, fun h => absurd h hl, fun _ _ => h2⟩

/-- A concrete model oracle appending `!` to each text. -/
def modelW : List String → String → String → Except String (List String) :=
  fun ts _ _ => Except.ok (ts.map fun t => t ++ "!")

/-- A loaded engine. -/
def engW : TranslationEngine := { loaded := true, current_src_lang := some "eng_Latn" }

theorem translate_batch_spec_witness :
    (translate_batch modelW engW ["hello"] "eng_Latn" "fra_Latn").1.length = ["hello"].length
    ∧ (["hello"] = ([] : List String) →
        (translate_batch modelW engW ["hello"] "eng_Latn" "fra_Latn").1 = [])
    ∧ (engW.loaded = false →
        (translate_batch modelW engW ["hello"] "eng_Latn" "fra_Latn").1 = ["hello"])
    ∧ (∀ e, modelW ["hello"] "eng_Latn" "fra_Latn" = Except.error e →
        (translate_batch modelW engW ["hello"] "eng_Latn" "fra_Latn").1 = ["hello"]) :=
  translate_batch_spec modelW engW ["hello"] "eng_Latn" "fra_Latn"
    (fun res h => by cases h; rfl)

/-! ## Pipeline orchestrator (`src/core/pipeline.py`)

`PipelineThread` state relevant to `_run_cycle` and `update_settings`,
with the collaborators (capture grab, grayscale downsampling, WinRT OCR
detection, k-means, the translation model, window-rect resolution) as
function parameters, and the calls the thread makes recorded as an event
trace in program order. -/

/-- Modelled from the spec: `CaptureMode` (`src/models/app_settings.py` is
not present under `src/`); spec §3 lists full screen / region / window. -/
inductive CaptureMode where
  | screen
  | region
  | window
  deriving Repr, DecidableEq

/-- Modelled from the spec: the `AppSettings` snapshot
(`src/models/app_settings.py` is not present under `src/`); fields are the
ones `pipeline.py` reads, named as there. -/
structure AppSettings where
  source_language : String
  target_language : String
  capture_mode : CaptureMode
  capture_monitor : Int
  capture_region : Option (Int × Int × Int × Int)
  capture_window_title : Option String
  update_interval_ms : Nat
  frame_diff_threshold : ℚ
  ocr_confidence_threshold : ℚ
  max_cache_size : Nat
  deriving Repr, DecidableEq

/-- Calls `PipelineThread` makes on its collaborators, in program order. -/
inductive PipelineEvent where
  | captureStop
  | captureStart (monitor : Int)
  | differReset
  | ocrSetLanguage (code : String)
  | ocrDetect
  | styleExtract
  | emitBlocks (blocks : List TextBlock)
  | cacheGet (key : CacheKey)
  | cachePut (key : CacheKey) (translation : String)
  | translateCall (texts : List String) (src tgt : String)
  deriving Repr, DecidableEq

/-- The mutable `PipelineThread` fields the cycle and settings updates
touch: the settings snapshot, the differ, the OCR confidence threshold,
the cache, the last published blocks, and the null-frame counter. -/
structure PipelineState where
  settings : AppSettings
  differ : FrameDiffer
  ocr_confidence_threshold : ℚ
  cache : TranslationCache
  last_blocks : List TextBlock
  null_frame_count : Nat

/-- `effective_src = source_lang if source_lang != "auto" else "eng_Latn"`
(`src/core/pipeline.py` line 217). -/
def effectiveSrc (s : AppSettings) : String :=
  if s.source_language ≠ "auto" then s.source_language else "eng_Latn"

/-- `PipelineThread.update_settings` (lines 100–122): swap the snapshot,
propagate threshold/confidence/capacity, call `ocr.set_language` only on a
real source-language change, and restart capture + reset the differ only
on a monitor/mode change. -/
def update_settings (st : PipelineState) (s : AppSettings) :
    PipelineState × List PipelineEvent :=
  let old_monitor := st.settings.capture_monitor
  let old_mode := st.settings.capture_mode
  let old_source := st.settings.source_language
  let st1 : PipelineState :=
    { st with
      settings := s,
      differ := { st.differ with threshold := s.frame_diff_threshold },
      ocr_confidence_threshold := s.ocr_confidence_threshold,
      cache := st.cache.setMaxSize s.max_cache_size }
  let ev1 := if s.source_language ≠ old_source ∧ s.source_language ≠ "auto"
    then [PipelineEvent.ocrSetLanguage s.source_language] else []
  if s.capture_monitor ≠ old_monitor ∨ s.capture_mode ≠ old_mode then
    ({ st1 with differ := st1.differ.reset },
     ev1 ++ [PipelineEvent.captureStop, PipelineEvent.captureStart s.capture_monitor,
             PipelineEvent.differReset])
  else (st1, ev1)

/-- Step 1 of `_run_cycle` (lines 144–158): resolve the capture region and
offsets from the settings, with window-title resolution as an oracle. -/
def resolveOffsets (windowRect : String → Option (Int × Int × Int × Int))
    (s : AppSettings) : Option (Int × Int × Int × Int) × Int × Int :=
  if s.capture_mode = CaptureMode.region then
    match s.capture_region with
    | some r => (some r, r.1, r.2.1)
    | none => (none, 0, 0)
  else if s.capture_mode = CaptureMode.window then
    match s.capture_window_title with
    | some title =>
        match windowRect title with
        | some r => (some r, r.1, r.2.1)
        | none => (none, 0, 0)
    | none => (none, 0, 0)
  else (none, 0, 0)

/-- The cache-lookup loop (lines 222–228): one `get` per block in order;
hits fill `translation`, misses are flagged for the batch. -/
def lookupPass (cache : TranslationCache) (eff tgt : String) :
    List TextBlock → List (TextBlock × Bool) × TranslationCache × List PipelineEvent
  | [] => ([], cache, [])
  | b :: rest =>
      let r := cache.get b.text eff tgt
      match r.1 with
      | some tr =>
          let rec' := lookupPass r.2 eff tgt rest
          (({ b with translation := some tr }, false) :: rec'.1, rec'.2.1,
           PipelineEvent.cacheGet (b.text, eff, tgt) :: rec'.2.2)
      | none =>
          let rec' := lookupPass r.2 eff tgt rest
          ((b, true) :: rec'.1, rec'.2.1,
           PipelineEvent.cacheGet (b.text, eff, tgt) :: rec'.2.2)

/-- The post-translation loop (lines 237–239): pair the batch results with
the flagged misses in order (`zip` truncates), set `translation`, `put`
into the cache. -/
def applyPass (cache : TranslationCache) (eff tgt : String) :
    List (TextBlock × Bool) → List String →
      List TextBlock × TranslationCache × List PipelineEvent
  | [], _ => ([], cache, [])
  | (b, false) :: rest, ts =>
      let rec' := applyPass cache eff tgt rest ts
      (b :: rec'.1, rec'.2.1, rec'.2.2)
  | (b, true) :: rest, [] =>
      let rec' := applyPass cache eff tgt rest []
      (b :: rec'.1, rec'.2.1, rec'.2.2)
  | (b, true) :: rest, t :: ts' =>
      let rec' := applyPass (cache.put b.text eff tgt t) eff tgt rest ts'
      ({ b with translation := some t } :: rec'.1, rec'.2.1,
       PipelineEvent.cachePut (b.text, eff, tgt) t :: rec'.2.2)

/-- Steps 5–6 of `_run_cycle`: cache lookups, one batched translation call
for the misses only (skipped when there are none), then cache population. -/
def translateSection (translateFn : List String → String → String → List String)
    (cache : TranslationCache) (eff tgt : String) (blocks : List TextBlock) :
    List TextBlock × TranslationCache × List PipelineEvent :=
  let looked := lookupPass cache eff tgt blocks
  let missTexts := (looked.1.filter fun p => p.2).map fun p => p.1.text
  if missTexts.isEmpty then (looked.1.map Prod.fst, looked.2.1, looked.2.2)
  else
    let translations := translateFn missTexts eff tgt
    let applied := applyPass looked.2.1 eff tgt looked.1 translations
    (applied.1, applied.2.1,
     looked.2.2 ++ PipelineEvent.translateCall missTexts eff tgt :: applied.2.2)

/-- `PipelineThread._run_cycle` (lines 142–244): capture (the grabbed
frame is the oracle input), null-frame accounting, the change gate with
republish-on-unchanged, the immediate empty publish when a stale overlay
exists, OCR, style extraction on frame-relative copies with colors copied
back, cached translation, and the final publish.  All settings reads
happen before any state writes, as in the source. -/
def run_cycle
    (downsample : Frame → GrayFrame)
    (ocr : Frame → Int → Int → List TextBlock)
    (km : List Pixel → Except String (Pixel × Pixel))
    (translateFn : List String → String → String → List String)
    (windowRect : String → Option (Int × Int × Int × Int))
    (frame? : Option Frame) (st : PipelineState) :
    PipelineState × List PipelineEvent :=
  let off := resolveOffsets windowRect st.settings
  let offset_x := off.2.1
  let offset_y := off.2.2
  match frame? with
  | none => ({ st with null_frame_count := st.null_frame_count + 1 }, [])
  | some frame =>
      let ch := st.differ.hasChanged (downsample frame)
      if ch.1 = false then
        if st.last_blocks ≠ [] then
          ({ st with differ := ch.2, null_frame_count := 0 },
           [PipelineEvent.emitBlocks st.last_blocks])
        else ({ st with differ := ch.2, null_frame_count := 0 }, [])
      else
        let evClear := if st.last_blocks ≠ [] then [PipelineEvent.emitBlocks []] else []
        let blocks := ocr frame offset_x offset_y
        if blocks = [] then
          ({ st with differ := ch.2, null_frame_count := 0, last_blocks := [] },
           evClear ++ [PipelineEvent.ocrDetect, PipelineEvent.emitBlocks []])
        else
          let style_blocks := blocks.map fun b =>
            { x := b.x - offset_x,
              y := b.y - offset_y,
              width := b.width,
              height := b.height,
              text := b.text,
              confidence := b.confidence,
              font_size := b.font_size : TextBlock }
          let styled := extract km frame style_blocks
          let blocks2 := List.zipWith
            (fun orig s => { orig with fg_color := s.fg_color, bg_color := s.bg_color })
            blocks styled
          let eff := effectiveSrc st.settings
          let tgt := st.settings.target_language
          let tr := translateSection translateFn st.cache eff tgt blocks2
          ({ st with
              differ := ch.2,
              null_frame_count := 0,
              cache := tr.2.1,
              last_blocks := tr.1 },
           evClear ++ PipelineEvent.ocrDetect :: PipelineEvent.styleExtract :: tr.2.2
             ++ [PipelineEvent.emitBlocks tr.1])

theorem lookupPass_events (cache : TranslationCache) (eff tgt : String)
    (bs : List TextBlock) :
    ∀ ev ∈ (lookupPass cache eff tgt bs).2.2,
      ∃ t, ev = PipelineEvent.cacheGet (t, eff, tgt) := by
  induction bs generalizing cache with
  | nil => intro ev hev; simp [lookupPass] at hev
  | cons b rest ih =>
    intro ev hev
    rw [lookupPass] at hev
    cases hr : (cache.get b.text eff tgt).1 with
    | some tr =>
      rw [hr] at hev
      simp only [List.mem_cons] at hev
      rcases hev with rfl | hev
      · exact ⟨b.text, rfl⟩
      · exact ih _ ev hev
    | none =>
      rw [hr] at hev
      simp only [List.mem_cons] at hev
      rcases hev with rfl | hev
      · exact ⟨b.text, rfl⟩
      · exact ih _ ev hev

theorem applyPass_events (cache : TranslationCache) (eff tgt : String)
    (ps : List (TextBlock × Bool)) (ts : List String) :
    ∀ ev ∈ (applyPass cache eff tgt ps ts).2.2,
      ∃ t tr, ev = PipelineEvent.cachePut (t, eff, tgt) tr := by
  induction ps generalizing cache ts with
  | nil => intro ev hev; simp [applyPass] at hev
  | cons p rest ih =>
    intro ev hev
    obtain ⟨b, flag⟩ := p
    cases flag with
    | false =>
      rw [applyPass] at hev
      exact ih _ _ ev hev
    | true =>
      cases ts with
      | nil =>
        rw [applyPass] at hev
        exact ih _ _ ev hev
      | cons t ts' =>
        rw [applyPass] at hev
        simp only [List.mem_cons] at hev
        rcases hev with rfl | hev
        · exact ⟨b.text, t, rfl⟩
        · exact ih _ _ ev hev

theorem translateSection_events
    (translateFn : List String → String → String → List String)
    (cache : TranslationCache) (eff tgt : String) (blocks : List TextBlock) :
    ∀ ev ∈ (translateSection translateFn cache eff tgt blocks).2.2,
      (∃ t, ev = PipelineEvent.cacheGet (t, eff, tgt))
      ∨ (∃ t tr, ev = PipelineEvent.cachePut (t, eff, tgt) tr)
      ∨ (∃ ts, ev = PipelineEvent.translateCall ts eff tgt) := by
  intro ev hev
  simp only [translateSection] at hev
  split at hev
  · exact Or.inl (lookupPass_events cache eff tgt blocks ev hev)
  · simp only [List.mem_append, List.mem_cons] at hev
    rcases hev with hev | rfl | hev
    · exact Or.inl (lookupPass_events cache eff tgt blocks ev hev)
    · exact Or.inr (Or.inr ⟨_, rfl⟩)
    · exact Or.inr (Or.inl (applyPass_events _ eff tgt _ _ ev hev))

/-- Classification of every event a cycle can emit: cache and translation
events always carry the cycle's effective source and target language. -/
theorem run_cycle_events (downsample : Frame → GrayFrame)
    (ocr : Frame → Int → Int → List TextBlock)
    (km : List Pixel → Except String (Pixel × Pixel))
    (translateFn : List String → String → String → List String)
    (windowRect : String → Option (Int × Int × Int × Int))
    (frame? : Option Frame) (st : PipelineState) :
    ∀ ev ∈ (run_cycle downsample ocr km translateFn windowRect frame? st).2,
      (∃ t, ev = PipelineEvent.cacheGet
        (t, effectiveSrc st.settings, st.settings.target_language))
      ∨ (∃ t tr, ev = PipelineEvent.cachePut
        (t, effectiveSrc st.settings, st.settings.target_language) tr)
      ∨ (∃ ts, ev = PipelineEvent.translateCall ts
        (effectiveSrc st.settings) st.settings.target_language)
      ∨ ev = PipelineEvent.ocrDetect
      ∨ ev = PipelineEvent.styleExtract
      ∨ (∃ bl, ev = PipelineEvent.emitBlocks bl) := by
  intro ev hev
  cases frame? with
  | none => simp [run_cycle] at hev
  | some frame =>
    simp only [run_cycle] at hev
    split at hev
    · split at hev
      · simp only [List.mem_singleton] at hev
        exact Or.inr (Or.inr (Or.inr (Or.inr (Or.inr ⟨_, hev⟩))))
      · simp at hev
    · split at hev
      · rcases List.mem_append.mp hev with h1 | h2
        · split at h1
          · simp only [List.mem_singleton] at h1
            exact Or.inr (Or.inr (Or.inr (Or.inr (Or.inr ⟨_, h1⟩))))
          · simp at h1
        · simp only [List.mem_cons, List.not_mem_nil, or_false] at h2
          rcases h2 with rfl | rfl
          · exact Or.inr (Or.inr (Or.inr (Or.inl rfl)))
          · exact Or.inr (Or.inr (Or.inr (Or.inr (Or.inr ⟨_, rfl⟩))))
      · rcases List.mem_append.mp hev with h12 | h3
        · rcases List.mem_append.mp h12 with h1 | h2
          · split at h1
            · simp only [List.mem_singleton] at h1
              exact Or.inr (Or.inr (Or.inr (Or.inr (Or.inr ⟨_, h1⟩))))
            · simp at h1
          · simp only [List.mem_cons] at h2
            rcases h2 with rfl | rfl | h4
            · exact Or.inr (Or.inr (Or.inr (Or.inl rfl)))
            · exact Or.inr (Or.inr (Or.inr (Or.inr (Or.inl rfl))))
            · rcases translateSection_events translateFn st.cache
                (effectiveSrc st.settings) st.settings.target_language _ ev h4 with
                hg | hp | ht
              · exact Or.inl hg
              · exact Or.inr (Or.inl hp)
              · exact Or.inr (Or.inr (Or.inl ht))
        · simp only [List.mem_singleton] at h3
          exact Or.inr (Or.inr (Or.inr (Or.inr (Or.inr ⟨_, h3⟩))))

/-- C9: in every cycle, the effective source language used for the cache
keys (`get` and `put`) and for the translation call is
`effective_src = source_language if ≠ "auto" else "eng_Latn"`: the
configured source when it is not "auto" and the fixed `"eng_Latn"` when it
is — no auto-detection happens at the translation layer. -/
theorem effective_source_language_spec (downsample : Frame → GrayFrame)
    (ocr : Frame → Int → Int → List TextBlock)
    (km : List Pixel → Except String (Pixel × Pixel))
    (translateFn : List String → String → String → List String)
    (windowRect : String → Option (Int × Int × Int × Int))
    (frame? : Option Frame) (st : PipelineState) :
    (st.settings.source_language ≠ "auto" →
      effectiveSrc st.settings = st.settings.source_language)
    ∧ (st.settings.source_language = "auto" → effectiveSrc st.settings = "eng_Latn")
    ∧ ∀ ev ∈ (run_cycle downsample ocr km translateFn windowRect frame? st).2,
        (∀ k, ev = PipelineEvent.cacheGet k →
          k.2.1 = effectiveSrc st.settings ∧ k.2.2 = st.settings.target_language)
        ∧ (∀ k tr, ev = PipelineEvent.cachePut k tr →
          k.2.1 = effectiveSrc st.settings ∧ k.2.2 = st.settings.target_language)
        ∧ (∀ ts s' g, ev = PipelineEvent.translateCall ts s' g →
          s' = effectiveSrc st.settings ∧ g = st.settings.target_language) := by
  refine ⟨fun h => by simp [effectiveSrc, h], fun h => by simp [effectiveSrc, h], ?_⟩
  intro ev hev
  have hc := run_cycle_events downsample ocr km translateFn windowRect frame? st ev hev
  refine ⟨?_, ?_, ?_⟩
  · intro k hk
    subst hk
    rcases hc with ⟨t, ht⟩ | ⟨t, tr, ht⟩ | ⟨ts, ht⟩ | ht | ht | ⟨bl, ht⟩
    · injection ht with h
      subst h
      exact ⟨rfl, rfl⟩
    · exact PipelineEvent.noConfusion ht
    · exact PipelineEvent.noConfusion ht
    · exact PipelineEvent.noConfusion ht
    · exact PipelineEvent.noConfusion ht
    · exact PipelineEvent.noConfusion ht
  · intro k tr' hk
    subst hk
    rcases hc with ⟨t, ht⟩ | ⟨t, tr, ht⟩ | ⟨ts, ht⟩ | ht | ht | ⟨bl, ht⟩
    · exact PipelineEvent.noConfusion ht
    · injection ht with h1 h2
      subst h1
      exact ⟨rfl, rfl⟩
    · exact PipelineEvent.noConfusion ht
    · exact PipelineEvent.noConfusion ht
    · exact PipelineEvent.noConfusion ht
    · exact PipelineEvent.noConfusion ht
  · intro ts' s' g hk
    subst hk
    rcases hc with ⟨t, ht⟩ | ⟨t, tr, ht⟩ | ⟨ts, ht⟩ | ht | ht | ⟨bl, ht⟩
    · exact PipelineEvent.noConfusion ht
    · exact PipelineEvent.noConfusion ht
    · injection ht with h1 h2 h3
      subst h2
      subst h3
      exact ⟨rfl, rfl⟩
    · exact PipelineEvent.noConfusion ht
    · exact PipelineEvent.noConfusion ht
    · exact PipelineEvent.noConfusion ht

/-- C2 (amended): in every pipeline cycle where the change detector
reports a change and the previously published block set is non-empty, the
very first event of the cycle is the publication of an empty block set —
so it precedes OCR, style extraction, translation, and any real block set
published by that cycle.  (When no blocks were previously published, the
code skips the empty publication entirely, see the counterexample.) -/
theorem cycle_change_publishes_empty_first (downsample : Frame → GrayFrame)
    (ocr : Frame → Int → Int → List TextBlock)
    (km : List Pixel → Except String (Pixel × Pixel))
    (translateFn : List String → String → String → List String)
    (windowRect : String → Option (Int × Int × Int × Int))
    (frame : Frame) (st : PipelineState)
    (hch : (st.differ.hasChanged (downsample frame)).1 = true)
    (hlast : st.last_blocks ≠ []) :
    (run_cycle downsample ocr km translateFn windowRect (some frame) st).2.head? =
      some (PipelineEvent.emitBlocks []) := by
  simp only [run_cycle]
  have hne : ¬ ((st.differ.hasChanged (downsample frame)).1 = false) := by
    rw [hch]; simp
  rw [if_neg hne, if_pos hlast]
  split
  · rfl
  · rfl

/-- C7: a settings snapshot whose capture monitor, capture mode and source
language agree with the old one (in particular one differing only in
`target_language`, or only in diff threshold / confidence floor / cache
capacity): `update_settings` performs no capture stop/start, no OCR
language reconfiguration and no differ reset (it emits no collaborator
calls and keeps the differ's stored reference and the cache contents),
yet the new threshold, confidence floor and capacity take effect at once
and the very next cycle's cache lookups and translation call use the new
`target_language` (and the new effective source). -/
theorem update_settings_no_restart (downsample : Frame → GrayFrame)
    (ocr : Frame → Int → Int → List TextBlock)
    (km : List Pixel → Except String (Pixel × Pixel))
    (translateFn : List String → String → String → List String)
    (windowRect : String → Option (Int × Int × Int × Int))
    (frame? : Option Frame) (st : PipelineState) (s : AppSettings)
    (hmon : s.capture_monitor = st.settings.capture_monitor)
    (hmode : s.capture_mode = st.settings.capture_mode)
    (hsrc : s.source_language = st.settings.source_language) :
    (update_settings st s).2 = []
    ∧ (update_settings st s).1.settings = s
    ∧ (update_settings st s).1.differ.threshold = s.frame_diff_threshold
    ∧ (update_settings st s).1.differ.prev_frame = st.differ.prev_frame
    ∧ (update_settings st s).1.ocr_confidence_threshold = s.ocr_confidence_threshold
    ∧ (update_settings st s).1.cache.max_size = s.max_cache_size
    ∧ (update_settings st s).1.cache.cache = st.cache.cache
    ∧ (∀ ev ∈ (run_cycle downsample ocr km translateFn windowRect frame?
          (update_settings st s).1).2,
        (∀ k, ev = PipelineEvent.cacheGet k → k.2.2 = s.target_language)
        ∧ (∀ ts s' g, ev = PipelineEvent.translateCall ts s' g →
            g = s.target_language ∧ s' = effectiveSrc s)) := by
  have key : update_settings st s =
      ({ st with
          settings := s,
          differ := { st.differ with threshold := s.frame_diff_threshold },
          ocr_confidence_threshold := s.ocr_confidence_threshold,
          cache := st.cache.setMaxSize s.max_cache_size }, []) := by
    unfold update_settings
    rw [if_neg (by push_neg; exact ⟨hmon, hmode⟩), if_neg (fun hcon => hcon.1 hsrc)]
  refine ⟨by rw [key], by rw [key], by rw [key], by rw [key], by rw [key],
    by rw [key]; rfl, by rw [key]; rfl, ?_⟩
  have hset : (update_settings st s).1.settings = s := by rw [key]
  intro ev hev
  have hc := run_cycle_events downsample ocr km translateFn windowRect frame?
    (update_settings st s).1 ev hev
  rw [hset] at hc
  refine ⟨?_, ?_⟩
  · intro k hk
    subst hk
    rcases hc with ⟨t, ht⟩ | ⟨t, tr, ht⟩ | ⟨ts, ht⟩ | ht | ht | ⟨bl, ht⟩
    · injection ht with h
      subst h
      rfl
    · exact PipelineEvent.noConfusion ht
    · exact PipelineEvent.noConfusion ht
    · exact PipelineEvent.noConfusion ht
    · exact PipelineEvent.noConfusion ht
    · exact PipelineEvent.noConfusion ht
  · intro ts' s' g hk
    subst hk
    rcases hc with ⟨t, ht⟩ | ⟨t, tr, ht⟩ | ⟨ts, ht⟩ | ht | ht | ⟨bl, ht⟩
    · exact PipelineEvent.noConfusion ht
    · exact PipelineEvent.noConfusion ht
    · injection ht with h1 h2 h3
      subst h2
      subst h3
      exact ⟨rfl, rfl⟩
    · exact PipelineEvent.noConfusion ht
    · exact PipelineEvent.noConfusion ht
    · exact PipelineEvent.noConfusion ht

/-- A downsampler producing a fixed 1×1 grayscale frame. -/
def dsW : Frame → GrayFrame := fun _ => { rows := 1, cols := 1, data := [0] }

/-- A concrete OCR result block. -/
def blockT : TextBlock :=
  { x := 0, y := 0, width := 50, height := 10, text := "hello", confidence := 1,
    font_size := 8 }

/-- An OCR collaborator always detecting `blockT`. -/
def ocrW : Frame → Int → Int → List TextBlock := fun _ _ _ => [blockT]

/-- A translation collaborator appending `!`. -/
def tfW : List String → String → String → List String :=
  fun ts _ _ => ts.map fun t => t ++ "!"

/-- A window resolver that never finds the window. -/
def wrW : String → Option (Int × Int × Int × Int) := fun _ => none

/-- A concrete settings snapshot with auto source detection configured. -/
def settingsW : AppSettings :=
  { source_language := "auto", target_language := "deu_Latn",
    capture_mode := CaptureMode.screen, capture_monitor := 1,
    capture_region := none, capture_window_title := none,
    update_interval_ms := 500, frame_diff_threshold := 5,
    ocr_confidence_threshold := 3 / 10, max_cache_size := 500 }

/-- The same snapshot with only `target_language` changed. -/
def settingsW2 : AppSettings := { settingsW with target_language := "fra_Latn" }

/-- A fresh pipeline state: nothing published yet, differ unprimed. -/
def pipelineStC : PipelineState :=
  { settings := settingsW,
    differ := { threshold := 5, downsample_width := 320, prev_frame := none },
    ocr_confidence_threshold := 3 / 10, cache := TranslationCache.init 500,
    last_blocks := [], null_frame_count := 0 }

/-- The same state after a previous publication of `blockT`. -/
def pipelineStC2 : PipelineState := { pipelineStC with last_blocks := [blockT] }

/-- C2 counterexample: on a fresh state (no previously published blocks),
a cycle whose change detector reports a change runs OCR as its very first
collaborator call and never publishes an empty block set, even though it
publishes a non-empty one — refuting the claim that an empty block set is
published before OCR in *every* change cycle. -/
theorem cycle_no_empty_publish_counterexample :
    (run_cycle dsW ocrW kmErr tfW wrW (some frameW) pipelineStC).2.head? =
      some PipelineEvent.ocrDetect
    ∧ PipelineEvent.emitBlocks [] ∉
        (run_cycle dsW ocrW kmErr tfW wrW (some frameW) pipelineStC).2 := by
  decide

theorem cycle_change_publishes_empty_first_witness :
    (run_cycle dsW ocrW kmErr tfW wrW (some frameW) pipelineStC2).2.head? =
      some (PipelineEvent.emitBlocks []) :=
  cycle_change_publishes_empty_first dsW ocrW kmErr tfW wrW frameW pipelineStC2
    rfl (by decide)

theorem effective_source_language_spec_witness :
    effectiveSrc pipelineStC.settings = "eng_Latn"
    ∧ (("hello", "eng_Latn", "deu_Latn") : CacheKey).2.1 =
        effectiveSrc pipelineStC.settings :=
  have h := effective_source_language_spec dsW ocrW kmErr tfW wrW (some frameW)
    pipelineStC
  ⟨h.2.1 rfl,
   ((h.2.2 (PipelineEvent.cacheGet ("hello", "eng_Latn", "deu_Latn")) (by decide)).1
     ("hello", "eng_Latn", "deu_Latn") rfl).1⟩

theorem update_settings_no_restart_witness :
    (update_settings pipelineStC settingsW2).2 = []
    ∧ (update_settings pipelineStC settingsW2).1.settings = settingsW2
    ∧ (update_settings pipelineStC settingsW2).1.differ.threshold =
        settingsW2.frame_diff_threshold
    ∧ (update_settings pipelineStC settingsW2).1.differ.prev_frame =
        pipelineStC.differ.prev_frame
    ∧ (update_settings pipelineStC settingsW2).1.ocr_confidence_threshold =
        settingsW2.ocr_confidence_threshold
    ∧ (update_settings pipelineStC settingsW2).1.cache.max_size =
        settingsW2.max_cache_size
    ∧ (update_settings pipelineStC settingsW2).1.cache.cache =
        pipelineStC.cache.cache
    ∧ (∀ ev ∈ (run_cycle dsW ocrW kmErr tfW wrW (some frameW)
          (update_settings pipelineStC settingsW2).1).2,
        (∀ k, ev = PipelineEvent.cacheGet k → k.2.2 = settingsW2.target_language)
        ∧ (∀ ts s' g, ev = PipelineEvent.translateCall ts s' g →
            g = settingsW2.target_language ∧ s' = effectiveSrc settingsW2)) :=
  update_settings_no_restart dsW ocrW kmErr tfW wrW (some frameW) pipelineStC
    settingsW2 rfl rfl rfl
